import Mathlib

/-!
# goldentest: the golden-file comparison and update engine

A shallow embedding of `goldentest.go`.

* A Go `error` is an `Error`: a plain message, or a cause wrapped by
  `fmt.Errorf(context + "%w", cause)`.
* A `(value, error)` return is a pair whose second component is `Option Error`
  (`none` is the nil error).
* A call that can end in a run-time panic returns a `Res`.
* The golden file lives in a world state `World`; `os.ReadFile` and
  `os.WriteFile`, `cmp.Diff`, `encoding/json` and `protojson` are external
  libraries and enter as parameters (`Lib`, `JSON`, `JSONLib`, `ProtoJSON`).
* A `*T` is represented by the content of the variable it points to.
* A hook `func(want, got *T) error` is a Go closure: it may keep state of its
  own and reach memory shared with the values.  All of that is a state `S`
  that is threaded through the compare operations.  A hook call receives the
  state and the two contents; it panics, or returns the new state, the
  contents it leaves in the two variables, and its error.
* `cmpopts.IgnoreFields` and `cmp.Diff` panic on types and field names they do
  not accept, so both return a `Res`; `cmp.Diff` reads the state.
* The compare operations also return the state they end in and the list of
  hook and diff invocations they performed, in order.
-/

namespace Goldentest

/-! ## Errors, results, bytes -/

/-- A Go error value. -/
inductive Error where
  /-- An error that wraps nothing: `errors.New`, `fmt.Errorf` without `%w`, or
  an error handed in by a hook or an external library. -/
  | base (msg : String)
  /-- The error built by `fmt.Errorf(context + "%w", cause)`. -/
  | wrap (context : String) (cause : Error)
  deriving DecidableEq, Repr

/-- The text of an error, as `Error()` prints it. -/
def Error.text : Error → String
  | .base msg => msg
  | .wrap context cause => context ++ cause.text

/-- Whether an error was built by wrapping another one. -/
def Error.isWrapped : Error → Bool
  | .base _ => false
  | .wrap _ _ => true

/-- Outcome of a call that either returns normally or panics. -/
inductive Res (α : Type) where
  | ret (a : α)
  | panic (msg : String)
  deriving DecidableEq, Repr

/-- A `[]byte` payload. -/
abbrev Bytes := String

/-- An `os.FileMode`. -/
abbrev FileMode := Nat

/-- The constant `os.ModePerm` (octal 777). -/
def ModePerm : FileMode := 511

/-! ## Values crossing the `Encoder` interface -/

/-- The `any` argument the handle passes to `Encoder.Marshal`: one `T`
(from `Update`) or a `[]T` (from `UpdateValues`). -/
inductive Payload (T : Type) where
  | value (v : T)
  | values (vs : List T)
  deriving DecidableEq, Repr

/-- The destination the handle passes to `Encoder.Unmarshal`: `&want` with
`want T`, or `&wantValues` with `wantValues []T`. -/
inductive Dest where
  | value
  | values
  deriving DecidableEq, Repr

/-- The type of the variable behind a destination. -/
@[reducible] def Dest.Slot (T : Type) : Dest → Type
  | .value => T
  | .values => List T

/-- The `Encoder` interface, at the argument shapes the handle uses.  `Unmarshal`
takes the present content of the destination variable and returns the error
together with the content it leaves there. -/
structure Encoder (T : Type) where
  Marshal : Payload T → Bool → Res (Except Error Bytes)
  Unmarshal : Bytes → (d : Dest) → Dest.Slot T d → Option Error × Dest.Slot T d

/-! ## `encoding/json` and `JSONEncoder` -/

/-- The two serialisers of `encoding/json` on values of type `V`. -/
structure JSON (V : Type) where
  Marshal : V → Except Error Bytes
  MarshalIndent : V → String → String → Except Error Bytes

/-- The part of `encoding/json` that `JSONEncoder` uses for a handle of `T`. -/
structure JSONLib (T : Type) extends JSON (Payload T) where
  Unmarshal : Bytes → (d : Dest) → Dest.Slot T d → Option Error × Dest.Slot T d

/-- `JSONEncoder.Marshal` (goldentest.go 217-222). -/
def JSONEncoder.Marshal {V : Type} (json : JSON V) (v : V) (packed : Bool) :
    Except Error Bytes :=
  if packed then
    json.MarshalIndent v "" "\t"
  else
    json.Marshal v

/-- `JSONEncoder.Unmarshal` (goldentest.go 224-226). -/
def JSONEncoder.Unmarshal {T : Type} (json : JSONLib T) (data : Bytes) (d : Dest)
    (cur : Dest.Slot T d) : Option Error × Dest.Slot T d :=
  json.Unmarshal data d cur

/-- `JSONEncoder{}` seen through the `Encoder` interface. -/
def JSONEncoder.encoder {T : Type} (json : JSONLib T) : Encoder T where
  Marshal v packed := .ret (JSONEncoder.Marshal json.toJSON v packed)
  Unmarshal data d cur := JSONEncoder.Unmarshal json data d cur


/-! ## The handle -/

/-- What a hook call that returns leaves behind: the state, the contents of
`*want` and `*got`, and its error. -/
structure HookResult (S T : Type) where
  state : S
  want : T
  got : T
  err : Option Error
  deriving DecidableEq, Repr

/-- A hook `func(want, got *T) error`, run in a state. -/
abbrev Hook (S T : Type) := S → T → T → Res (HookResult S T)

/-- The struct `Golden[T]` (goldentest.go 16-24). -/
structure Golden (S T : Type) where
  path : String
  packed : Bool
  encoder : Encoder T
  writeMode : FileMode
  ignoreFields : List String
  beforeCompare : Option (Hook S T)
  beforeUpdate : Option (Hook S T)

/-- The struct `CompareResult[T]` (goldentest.go 26-30).  `Want` and `Got` are
pointers: `none` is the nil pointer, `some v` a pointer to a variable that holds
`v` when `Golden.cmp` returns. -/
structure CompareResult (T : Type) where
  Want : Option T
  Got : Option T
  Diff : String
  deriving DecidableEq, Repr

/-- `CompareResult.OK` (goldentest.go 32-34). -/
def CompareResult.OK {T : Type} (r : CompareResult T) : Bool :=
  decide (r.Diff = "")

/-- `New` (goldentest.go 36-41): every field but `path` and `encoder` has its
zero value. -/
def New {S T : Type} (json : JSONLib T) (path : String) : Golden S T where
  path := path
  packed := false
  encoder := JSONEncoder.encoder json
  writeMode := 0
  ignoreFields := []
  beforeCompare := none
  beforeUpdate := none

/-- `Golden.Path` (goldentest.go 43-45). -/
def Golden.Path {S T : Type} (g : Golden S T) : String :=
  g.path

/-- `Golden.WithIgnoreFields` (goldentest.go 47-50). -/
def Golden.WithIgnoreFields {S T : Type} (g : Golden S T) (fields : List String) :
    Golden S T :=
  { g with ignoreFields := fields }

/-- `Golden.WithPackedOutput` (goldentest.go 51-54). -/
def Golden.WithPackedOutput {S T : Type} (g : Golden S T) (packed : Bool) : Golden S T :=
  { g with packed := packed }

/-- `Golden.WriteOutputFileMode` (goldentest.go 55-58). -/
def Golden.WriteOutputFileMode {S T : Type} (g : Golden S T) (mode : FileMode) :
    Golden S T :=
  { g with writeMode := mode }

/-- `Golden.WithBeforeUpdate` (goldentest.go 59-62). -/
def Golden.WithBeforeUpdate {S T : Type} (g : Golden S T) (f : Option (Hook S T)) :
    Golden S T :=
  { g with beforeUpdate := f }

/-- `Golden.WithBeforeCompare` (goldentest.go 63-66). -/
def Golden.WithBeforeCompare {S T : Type} (g : Golden S T) (f : Option (Hook S T)) :
    Golden S T :=
  { g with beforeCompare := f }

/-- `Golden.WithEncoder` (goldentest.go 67-70). -/
def Golden.WithEncoder {S T : Type} (g : Golden S T) (encoder : Encoder T) : Golden S T :=
  { g with encoder := encoder }

/-! ## External libraries of the handle -/

/-- An option handed to `cmp.Diff`. -/
inductive CmpOption (T : Type) where
  /-- The option `protocmp.Transform()`. -/
  | protocmpTransform
  /-- The option `cmpopts.IgnoreFields(typ, names...)`. -/
  | ignoreFields (typ : T) (names : List String)
  deriving DecidableEq, Repr

/-- The libraries the handle calls.  `zero` is the zero value of `T`, the
content of `var want T`. -/
structure Lib (S T World : Type) where
  zero : T
  /-- The call `os.ReadFile(name)`. -/
  ReadFile : World → String → Except Error Bytes
  /-- The call `os.WriteFile(name, data, perm)`. -/
  WriteFile : World → String → Bytes → FileMode → World × Option Error
  /-- The call `cmpopts.IgnoreFields(typ, names...)`: the option, or the panic
  it raises when `typ` is no struct or lacks one of the fields. -/
  IgnoreFields : T → List String → Res (CmpOption T)
  /-- The call `cmp.Diff(want, got, opts...)` in a state: the report, or the
  panic it raises on values it cannot compare. -/
  Diff : S → T → T → List (CmpOption T) → Res String

/-- One invocation performed by a compare operation. -/
inductive Event (T : Type) where
  /-- The `beforeCompare` hook was called on these contents. -/
  | hook (want got : T)
  /-- The function `cmp.Diff` was called on these contents. -/
  | diff (want got : T)
  deriving DecidableEq, Repr

/-- The Go map `map[int]CompareResult[T]`, as the list of its entries. -/
abbrev ResultMap (T : Type) := List (Nat × CompareResult T)

/-- The assignment `result[i] = res`. -/
def ResultMap.set {T : Type} (m : ResultMap T) (i : Nat) (res : CompareResult T) :
    ResultMap T :=
  m.filter (fun p => decide (p.1 ≠ i)) ++ [(i, res)]

/-- The lookup `result[i]`, `none` when `i` is no key. -/
def ResultMap.get? {T : Type} (m : ResultMap T) (i : Nat) : Option (CompareResult T) :=
  (m.find? (fun p => decide (p.1 = i))).map Prod.snd

/-! ## Update -/

/-- `Golden.Write` (goldentest.go 89-94). -/
def Golden.Write {S T World : Type} (lib : Lib S T World) (g : Golden S T) (data : Bytes)
    (w : World) : World × Option Error :=
  let writeMode := if g.writeMode = 0 then ModePerm else g.writeMode
  lib.WriteFile w g.path data writeMode

/-- `Golden.update` (goldentest.go 80-87). -/
def Golden.update {S T World : Type} (lib : Lib S T World) (g : Golden S T)
    (golden : Payload T) (w : World) : Res (World × Option Error) :=
  match g.encoder.Marshal golden g.packed with
  | .panic msg => .panic msg
  | .ret (.error err) => .ret (w, some (.wrap "marshal: " err))
  | .ret (.ok data) => .ret (g.Write lib data w)

/-- `Golden.Update` (goldentest.go 72-74). -/
def Golden.Update {S T World : Type} (lib : Lib S T World) (g : Golden S T) (got : T)
    (w : World) : Res (World × Option Error) :=
  g.update lib (.value got) w

/-- `Golden.UpdateValues` (goldentest.go 76-78). -/
def Golden.UpdateValues {S T World : Type} (lib : Lib S T World) (g : Golden S T)
    (got : List T) (w : World) : Res (World × Option Error) :=
  g.update lib (.values got) w

/-! ## Compare

A compare operation returns `((value, error), state, invocations)` or
panics. -/

/-- The options `Golden.cmp` hands to `cmp.Diff` (goldentest.go 104-107); the
call of `cmpopts.IgnoreFields` may panic. -/
def Golden.diffOpts {S T World : Type} (lib : Lib S T World) (g : Golden S T) (want : T) :
    Res (List (CmpOption T)) :=
  let opts := [CmpOption.protocmpTransform]
  if g.ignoreFields.length > 0 then
    match lib.IgnoreFields want g.ignoreFields with
    | .panic msg => .panic msg
    | .ret opt => .ret (opts ++ [opt])
  else
    .ret opts

/-- The second half of `Golden.cmp` (goldentest.go 104-113): the options and
the diff of the two contents in state `s`; `tr` are the invocations made before
it. -/
def Golden.cmpDiff {S T World : Type} (lib : Lib S T World) (g : Golden S T) (s : S)
    (want got : T) (tr : List (Event T)) :
    Res ((CompareResult T × Option Error) × S × List (Event T)) :=
  match g.diffOpts lib want with
  | .panic msg => .panic msg
  | .ret opts =>
    match lib.Diff s want got opts with
    | .panic msg => .panic msg
    | .ret d =>
      .ret (({ Want := some want, Got := some got, Diff := d }, none), s,
        tr ++ [Event.diff want got])

/-- `Golden.cmp` (goldentest.go 96-114).  The hook works through the two
pointers and on the state, so that what follows it sees the state and the
contents it left. -/
def Golden.cmp {S T World : Type} (lib : Lib S T World) (g : Golden S T) (s : S)
    (want got : T) : Res ((CompareResult T × Option Error) × S × List (Event T)) :=
  match g.beforeCompare with
  | some f =>
    match f s want got with
    | .panic msg => .panic msg
    | .ret h =>
      match h.err with
      | some err =>
        .ret (({ Want := some h.want, Got := some h.got, Diff := "" }, some err), h.state,
          [Event.hook want got])
      | none => g.cmpDiff lib h.state h.want h.got [Event.hook want got]
  | none => g.cmpDiff lib s want got []

/-- `Golden.Compare` (goldentest.go 117-130); `got` is the content behind the
caller's pointer. -/
def Golden.Compare {S T World : Type} (lib : Lib S T World) (g : Golden S T) (got : T)
    (w : World) (s : S) : Res ((CompareResult T × Option Error) × S × List (Event T)) :=
  match lib.ReadFile w g.path with
  | .error err =>
    .ret (({ Want := none, Got := none, Diff := "" }, some (.wrap "read file: " err)), s, [])
  | .ok goldenData =>
    match g.encoder.Unmarshal goldenData .value lib.zero with
    | (some err, _) =>
      .ret (({ Want := none, Got := none, Diff := "" },
        some (.wrap "unmarshal golden: " err)), s, [])
    | (none, want) => g.cmp lib s want got

/-- The loop of `Golden.CompareValues` (goldentest.go 154-166), from index `i`
on, over the fresh values not yet visited. -/
def Golden.compareLoop {S T World : Type} (lib : Lib S T World) (g : Golden S T)
    (wantValues : List T) :
    List T → Nat → S → ResultMap T → List (Event T) →
      Res ((ResultMap T × Option Error) × S × List (Event T))
  | [], _, s, result, tr => .ret ((result, none), s, tr)
  | got :: rest, i, s, result, tr =>
    match wantValues[i]? with
    | none => .panic "index out of range"
    | some want =>
      match g.cmp lib s want got with
      | .panic msg => .panic msg
      | .ret ((_, some err), s1, ev) => .ret ((result, some err), s1, tr ++ ev)
      | .ret ((res, none), s1, ev) =>
        if res.OK then
          Golden.compareLoop lib g wantValues rest (i + 1) s1 result (tr ++ ev)
        else
          Golden.compareLoop lib g wantValues rest (i + 1) s1 (result.set i res) (tr ++ ev)

/-- `Golden.CompareValues` (goldentest.go 132-169). -/
def Golden.CompareValues {S T World : Type} (lib : Lib S T World) (g : Golden S T)
    (gotValues : List T) (w : World) (s : S) :
    Res ((ResultMap T × Option Error) × S × List (Event T)) :=
  let result : ResultMap T := []
  match lib.ReadFile w g.path with
  | .error err => .ret ((result, some (.wrap "read file: " err)), s, [])
  | .ok goldenData =>
    match g.encoder.Unmarshal goldenData .values [] with
    | (some err, _) =>
      .ret ((result, some (.wrap "unmarshal golden values: " err)), s, [])
    | (none, wantValues) =>
      if gotValues.length ≠ wantValues.length then
        .ret ((result, some (.base ("want " ++ toString wantValues.length ++
          " items but got " ++ toString gotValues.length))), s, [])
      else if wantValues.length = 0 then
        .ret ((result, none), s, [])
      else
        Golden.compareLoop lib g wantValues gotValues 0 s result []

/-- `Golden.CompareElements` (goldentest.go 171-208), the same text as
`CompareValues`. -/
def Golden.CompareElements {S T World : Type} (lib : Lib S T World) (g : Golden S T)
    (gotValues : List T) (w : World) (s : S) :
    Res ((ResultMap T × Option Error) × S × List (Event T)) :=
  let result : ResultMap T := []
  match lib.ReadFile w g.path with
  | .error err => .ret ((result, some (.wrap "read file: " err)), s, [])
  | .ok goldenData =>
    match g.encoder.Unmarshal goldenData .values [] with
    | (some err, _) =>
      .ret ((result, some (.wrap "unmarshal golden values: " err)), s, [])
    | (none, wantValues) =>
      if gotValues.length ≠ wantValues.length then
        .ret ((result, some (.base ("want " ++ toString wantValues.length ++
          " items but got " ++ toString gotValues.length))), s, [])
      else if wantValues.length = 0 then
        .ret ((result, none), s, [])
      else
        Golden.compareLoop lib g wantValues gotValues 0 s result []

/-! ## `ProtoJSONEncoder` -/

/-- The enumeration `reflect.Kind`. -/
inductive Kind where
  | invalid | bool | int | int8 | int16 | int32 | int64
  | uint | uint8 | uint16 | uint32 | uint64 | uintptr
  | float32 | float64 | complex64 | complex128
  | array | chan | func | interface | map | ptr | slice | string | struct
  | unsafePointer
  deriving DecidableEq, Repr

/-- `reflect.Kind.String`. -/
def Kind.String : Kind → String
  | .invalid => "invalid" | .bool => "bool" | .int => "int" | .int8 => "int8"
  | .int16 => "int16" | .int32 => "int32" | .int64 => "int64" | .uint => "uint"
  | .uint8 => "uint8" | .uint16 => "uint16" | .uint32 => "uint32" | .uint64 => "uint64"
  | .uintptr => "uintptr" | .float32 => "float32" | .float64 => "float64"
  | .complex64 => "complex64" | .complex128 => "complex128" | .array => "array"
  | .chan => "chan" | .func => "func" | .interface => "interface" | .map => "map"
  | .ptr => "ptr" | .slice => "slice" | .string => "string" | .struct => "struct"
  | .unsafePointer => "unsafe.Pointer"

/-- A Go value held in an `any`, as far as `ProtoJSONEncoder.Marshal` inspects
it. -/
inductive GoValue (Msg : Type) where
  /-- The nil interface value. -/
  | nil
  /-- A value that implements `proto.Message`. -/
  | message (m : Msg)
  /-- A slice that is no `proto.Message`, with its elements. -/
  | slice (elems : List (GoValue Msg))
  /-- Any other value: no `proto.Message`, of a kind that is not `Slice`. -/
  | other (k : Kind) (notSlice : k ≠ Kind.slice)

/-- The type assertion `v.(proto.Message)`; `none` when it fails. -/
def GoValue.asMessage {Msg : Type} : GoValue Msg → Option Msg
  | .message m => some m
  | _ => none

/-- The kind of `reflect.TypeOf(v)`; `none` when `reflect.TypeOf` returns the
nil type, which it does exactly for the nil interface value. -/
def GoValue.TypeOf {Msg : Type} : GoValue Msg → Option Kind
  | .nil => none
  | .message _ => some Kind.ptr
  | .slice _ => some Kind.slice
  | .other k _ => some k

/-- The elements `reflect.ValueOf(v).Index(i).Interface()` of a slice. -/
def GoValue.elems {Msg : Type} : GoValue Msg → List (GoValue Msg)
  | .slice es => es
  | _ => []

/-- The libraries `ProtoJSONEncoder` calls: `protojson` on messages `Msg`, and
`encoding/json` on the generic objects `Obj` (Go: `map[string]any`). -/
structure ProtoJSON (Msg Obj : Type) where
  /-- The call `protojson.MarshalOptions{Indent: indent}.Marshal(m)`. -/
  Marshal : String → Msg → Except Error Bytes
  /-- The call `protojson.Unmarshal(data, m)`: the error and the message as
  left behind. -/
  Unmarshal : Bytes → Msg → Option Error × Msg
  /-- The call `json.Unmarshal(data, &obj)` into an empty object. -/
  jsonUnmarshalObj : Bytes → Except Error Obj
  /-- The serialisers of `encoding/json` on `[]map[string]any`. -/
  json : JSON (List Obj)

/-- `ProtoJSONEncoder.marshal` (goldentest.go 230-236). -/
def ProtoJSONEncoder.marshal {Msg Obj : Type} (pj : ProtoJSON Msg Obj) (m : Msg)
    (packed : Bool) : Except Error Bytes :=
  let indent := if !packed then "\t" else ""
  pj.Marshal indent m

/-- `ProtoJSONEncoder.toObj` (goldentest.go 238-248). -/
def ProtoJSONEncoder.toObj {Msg Obj : Type} (pj : ProtoJSON Msg Obj) (m : Msg)
    (packed : Bool) : Except Error Obj :=
  match ProtoJSONEncoder.marshal pj m packed with
  | .error err => .error err
  | .ok data =>
    match pj.jsonUnmarshalObj data with
    | .error err => .error err
    | .ok obj => .ok obj

/-- The loop of `ProtoJSONEncoder.Marshal` (goldentest.go 263-274) over the
elements not yet visited. -/
def ProtoJSONEncoder.marshalLoop {Msg Obj : Type} (pj : ProtoJSON Msg Obj) (packed : Bool) :
    List (GoValue Msg) → List Obj → Except Error (List Obj)
  | [], results => .ok results
  | vv :: rest, results =>
    match vv.asMessage with
    | none => .error (.base "invalid proto message")
    | some msg =>
      match ProtoJSONEncoder.toObj pj msg packed with
      | .error err => .error err
      | .ok obj => ProtoJSONEncoder.marshalLoop pj packed rest (results ++ [obj])

/-- `ProtoJSONEncoder.Marshal` (goldentest.go 250-276).  Calling `Kind()` on
the nil type is a nil dereference. -/
def ProtoJSONEncoder.Marshal {Msg Obj : Type} (pj : ProtoJSON Msg Obj) (v : GoValue Msg)
    (packed : Bool) : Res (Except Error Bytes) :=
  match v.asMessage with
  | some msg => .ret (ProtoJSONEncoder.marshal pj msg packed)
  | none =>
    match v.TypeOf with
    | none => .panic "runtime error: invalid memory address or nil pointer dereference"
    | some kind =>
      if kind ≠ Kind.slice then
        .ret (.error (.base ("unsupport type: " ++ kind.String)))
      else
        match ProtoJSONEncoder.marshalLoop pj packed v.elems [] with
        | .error err => .ret (.error err)
        | .ok results => .ret (JSONEncoder.Marshal pj.json results packed)

/-- The destination handed to `ProtoJSONEncoder.Unmarshal`, as far as it is
inspected. -/
inductive GoDest (Msg : Type) where
  /-- The nil interface value. -/
  | nil
  /-- A value implementing `proto.Message`, with the message it holds. -/
  | message (msg : Msg)
  /-- A `*proto.Message`, with the message behind it. -/
  | messagePtr (msg : Msg)
  /-- Any other non-nil value, such as a `*[]T` or a `**T`. -/
  | other
  deriving DecidableEq, Repr

/-- `ProtoJSONEncoder.unmarshal` (goldentest.go 278-288): the error, and the
destination as left behind. -/
def ProtoJSONEncoder.unmarshal {Msg Obj : Type} (pj : ProtoJSON Msg Obj) (data : Bytes) :
    GoDest Msg → Option Error × GoDest Msg
  | .message msg => ((pj.Unmarshal data msg).1, .message (pj.Unmarshal data msg).2)
  | .messagePtr msg => ((pj.Unmarshal data msg).1, .messagePtr (pj.Unmarshal data msg).2)
  | v => (some (.base "non proto message"), v)

/-- `ProtoJSONEncoder.Unmarshal` (goldentest.go 290-295). -/
def ProtoJSONEncoder.Unmarshal {Msg Obj : Type} (pj : ProtoJSON Msg Obj) (data : Bytes)
    (v : GoDest Msg) : Option Error × GoDest Msg :=
  match v with
  | .nil => (some (.base "missing value"), v)
  | _ => ProtoJSONEncoder.unmarshal pj data v

/-- `ProtoJSONEncoder{}` seen through the `Encoder` interface by a handle
`Golden[T]` whose `T` is a concrete message type such as `*pb.Span`: a `T` in an `any`
is a `proto.Message`, a `[]T` is a slice of them, and the destinations `&want`
(a `**pb.Span`) and `&wantValues` (a `*[]*pb.Span`) are neither a
`proto.Message` nor a `*proto.Message`, so that what they point to is left as
it is. -/
def ProtoJSONEncoder.encoder {Msg Obj : Type} (pj : ProtoJSON Msg Obj) : Encoder Msg where
  Marshal v packed :=
    match v with
    | .value m => ProtoJSONEncoder.Marshal pj (.message m) packed
    | .values ms => ProtoJSONEncoder.Marshal pj (.slice (ms.map GoValue.message)) packed
  Unmarshal data _ cur := ((ProtoJSONEncoder.Unmarshal pj data GoDest.other).1, cur)


/-! ## Vocabulary for stating the batch results -/

/-- The first step of `Golden.cmp` (goldentest.go 97-102) in state `s`: with a
hook, its call; without a hook, a return that leaves the state and the two
contents as they were, with no error. -/
def Golden.runBeforeCompare {S T : Type} (g : Golden S T) (s : S) (want got : T) :
    Res (HookResult S T) :=
  match g.beforeCompare with
  | some f => f s want got
  | none => .ret { state := s, want := want, got := got, err := none }

/-- The state after the comparison of a pair that began in state `s`: the state
its hook call left. -/
def Golden.nextState {S T : Type} (g : Golden S T) (s : S) (p : T × T) : S :=
  match g.runBeforeCompare s p.1 p.2 with
  | .ret h => h.state
  | .panic _ => s

/-- The state in which the comparison of pair number `i` begins, when the run
begins in state `s`: the comparisons of the `i` pairs before it have been
made, in order. -/
def Golden.stateBefore {S T : Type} (g : Golden S T) (s : S) (pairs : List (T × T))
    (i : Nat) : S :=
  (pairs.take i).foldl g.nextState s

/-- The hook invocation of one comparison: one call when a hook is set. -/
def Golden.hookEvents {S T : Type} (g : Golden S T) (want got : T) : List (Event T) :=
  match g.beforeCompare with
  | some _ => [Event.hook want got]
  | none => []

/-- The invocations of the comparisons of the given pairs, begun in state `s`,
each running to its end: for each pair the hook when one is set, then the diff
of what the hook left. -/
def Golden.events {S T : Type} (g : Golden S T) : S → List (T × T) → List (Event T)
  | _, [] => []
  | s, p :: rest =>
    match g.runBeforeCompare s p.1 p.2 with
    | .panic _ => []
    | .ret h =>
      g.hookEvents p.1 p.2 ++ [Event.diff h.want h.got] ++ Golden.events g h.state rest

/-- The entries a run of the loop adds for the given pairs, begun in state `s`,
the first pair having index `i`: one entry for each pair whose diff is not
empty, as long as the comparisons run to their end. -/
def Golden.entries {S T World : Type} (lib : Lib S T World) (g : Golden S T) :
    S → Nat → List (T × T) → ResultMap T
  | _, _, [] => []
  | s, i, p :: rest =>
    match g.runBeforeCompare s p.1 p.2 with
    | .panic _ => []
    | .ret h =>
      match h.err with
      | some _ => []
      | none =>
        match g.diffOpts lib h.want with
        | .panic _ => []
        | .ret opts =>
          match lib.Diff h.state h.want h.got opts with
          | .panic _ => []
          | .ret d =>
            if d = "" then
              Golden.entries lib g h.state (i + 1) rest
            else
              (i, { Want := some h.want, Got := some h.got, Diff := d }) ::
                Golden.entries lib g h.state (i + 1) rest

/-- The diff that the comparison of pair number `i` computes, when the run
begins in state `s`: the diff of the pair as the hook left it; `none` when
there is no such pair or the comparison does not get as far as a diff that
returns. -/
def Golden.diffAt {S T World : Type} (lib : Lib S T World) (g : Golden S T) (s : S)
    (pairs : List (T × T)) (i : Nat) : Option String :=
  match pairs[i]? with
  | none => none
  | some p =>
    match g.runBeforeCompare (g.stateBefore s pairs i) p.1 p.2 with
    | .panic _ => none
    | .ret h =>
      match g.diffOpts lib h.want with
      | .panic _ => none
      | .ret opts =>
        match lib.Diff h.state h.want h.got opts with
        | .panic _ => none
        | .ret d => some d

/-- Whether position `i` differs: the diff computed there is not empty. -/
def Golden.differsAt {S T World : Type} (lib : Lib S T World) (g : Golden S T) (s : S)
    (pairs : List (T × T)) (i : Nat) : Bool :=
  match g.diffAt lib s pairs i with
  | some d => decide (d ≠ "")
  | none => false

/-- Every comparison of the given pairs, begun in state `s`, runs to its end:
the hook call returns without error, the options can be built and `cmp.Diff`
returns. -/
def Golden.CompletesAll {S T World : Type} (lib : Lib S T World) (g : Golden S T) (s : S)
    (pairs : List (T × T)) : Prop :=
  ∀ j p, pairs[j]? = some p →
    ∃ h opts d, g.runBeforeCompare (g.stateBefore s pairs j) p.1 p.2 = .ret h ∧
      h.err = none ∧ g.diffOpts lib h.want = .ret opts ∧
      lib.Diff h.state h.want h.got opts = .ret d

/-! ## A concrete environment

Values are natural numbers, the state of a hook is the number of calls made so
far, the file system is a table from paths to contents, and the external
libraries are small stand-ins, used to run the definitions on concrete
inputs. -/

namespace Sample

/-- A file system: the files with their contents. -/
abbrev World := List (String × Bytes)

/-- Reading fails for a path that is not in the table. -/
def ReadFile (w : World) (name : String) : Except Error Bytes :=
  match w.lookup name with
  | some data => .ok data
  | none => .error (.base ("open " ++ name ++ ": no such file or directory"))

/-- Writing fails for the empty path and replaces the file otherwise. -/
def WriteFile (w : World) (name : String) (data : Bytes) (_perm : FileMode) :
    World × Option Error :=
  if name = "" then
    (w, some (.base "open : no such file or directory"))
  else
    ((name, data) :: w.filter (fun f => decide (f.1 ≠ name)), none)

/-- A diff of two numbers: empty exactly when they are equal. -/
def Diff (_s : Nat) (x y : Nat) (_opts : List (CmpOption Nat)) : Res String :=
  .ret (if x = y then "" else "-" ++ toString x ++ " +" ++ toString y)

/-- A number is no struct: `cmpopts.IgnoreFields` panics on it. -/
def IgnoreFields (_typ : Nat) (_names : List String) : Res (CmpOption Nat) :=
  .panic "int must be a non-pointer struct"

/-- The libraries of a handle on numbers. -/
def lib : Lib Nat Nat World where
  zero := 0
  ReadFile := ReadFile
  WriteFile := WriteFile
  IgnoreFields := IgnoreFields
  Diff := Diff

/-- Compact rendering of a number or a list of numbers. -/
def jsonMarshal : Payload Nat → Except Error Bytes
  | .value n => .ok (toString n)
  | .values ns => .ok ("[" ++ ",".intercalate (ns.map toString) ++ "]")

/-- Indented rendering: every element of a list on a line of its own. -/
def jsonMarshalIndent : Payload Nat → String → String → Except Error Bytes
  | .value n, _, _ => .ok (toString n)
  | .values [], _, _ => .ok "[]"
  | .values (n :: ns), pre, indent =>
    .ok ("[\n" ++ ",\n".intercalate ((n :: ns).map (fun k => pre ++ indent ++ toString k)) ++
      "\n" ++ pre ++ "]")

/-- The payloads the stand-in decoder knows. -/
def knownValues : List (Bytes × List Nat) :=
  [("[]", []), ("[1]", [1]), ("[1,1]", [1, 1]), ("[1,2]", [1, 2]), ("[1,2,3]", [1, 2, 3])]

/-- The single values the stand-in decoder knows. -/
def knownValue : List (Bytes × Nat) :=
  [("0", 0), ("1", 1), ("2", 2), ("3", 3)]

/-- Decoding: a known payload is stored in the destination, anything else is
an error that leaves the destination as it was. -/
def jsonUnmarshal (data : Bytes) : (d : Dest) → Dest.Slot Nat d → Option Error × Dest.Slot Nat d
  | .value, cur =>
    match knownValue.lookup data with
    | some n => (none, n)
    | none => (some (.base "invalid character"), cur)
  | .values, cur =>
    match knownValues.lookup data with
    | some ns => (none, ns)
    | none => (some (.base "invalid character"), cur)

/-- The stand-in for `encoding/json`. -/
def json : JSONLib Nat where
  Marshal := jsonMarshal
  MarshalIndent := jsonMarshalIndent
  Unmarshal := jsonUnmarshal

/-- A hook that always fails, leaving both values as they are. -/
def failing : Hook Nat Nat :=
  fun s want got => .ret { state := s + 1, want := want, got := got, err := some (.base "vetoed") }

/-- A hook that fails exactly when the reference is 2. -/
def failingAtTwo : Hook Nat Nat :=
  fun s want got =>
    .ret { state := s + 1, want := want, got := got,
           err := if want = 2 then some (.base "vetoed") else none }

/-- A hook that keeps state: it fails on its second call, whatever the
values. -/
def failingSecondCall : Hook Nat Nat :=
  fun s want got =>
    .ret { state := s + 1, want := want, got := got,
           err := if s = 1 then some (.base "vetoed") else none }

/-- A hook that normalises both values to 0 and succeeds. -/
def normalising : Hook Nat Nat :=
  fun s _ _ => .ret { state := s + 1, want := 0, got := 0, err := none }

/-- A hook that normalises both values to 0, and fails when the reference
is 2. -/
def normalisingUntilTwo : Hook Nat Nat :=
  fun s want _ =>
    .ret { state := s + 1, want := 0, got := 0,
           err := if want = 2 then some (.base "vetoed") else none }

/-- A hook that keeps state: on its first call it normalises both values to 0,
on later calls it leaves them as they are; it never fails. -/
def normalisingFirstCall : Hook Nat Nat :=
  fun s want got =>
    .ret { state := s + 1, want := if s = 0 then 0 else want,
           got := if s = 0 then 0 else got, err := none }

/-- A hook that writes 0 into both values and then fails. -/
def writingThenFailing : Hook Nat Nat :=
  fun s _ _ => .ret { state := s + 1, want := 0, got := 0, err := some (.base "vetoed") }

/-- The handle `New[int]("golden.json")`. -/
def golden : Golden Nat Nat := New json "golden.json"

/-- The handle with the normalising hook. -/
def normalisingGolden : Golden Nat Nat := golden.WithBeforeCompare (some normalising)

/-- The handle with the hook that always fails. -/
def vetoGolden : Golden Nat Nat := golden.WithBeforeCompare (some failing)

/-- The handle with the hook that fails at reference 2. -/
def vetoAtTwoGolden : Golden Nat Nat := golden.WithBeforeCompare (some failingAtTwo)

/-- The handle with the hook that fails on its second call. -/
def vetoSecondCallGolden : Golden Nat Nat := golden.WithBeforeCompare (some failingSecondCall)

/-- The handle with the hook that normalises and fails at reference 2. -/
def normalisingUntilTwoGolden : Golden Nat Nat :=
  golden.WithBeforeCompare (some normalisingUntilTwo)

/-- The handle with the hook that normalises on its first call only. -/
def normalisingFirstCallGolden : Golden Nat Nat :=
  golden.WithBeforeCompare (some normalisingFirstCall)

/-- The handle with the hook that writes and then fails. -/
def writingVetoGolden : Golden Nat Nat := golden.WithBeforeCompare (some writingThenFailing)

/-- The handle `New[int]("golden.json").WithIgnoreFields("x")`. -/
def ignoringGolden : Golden Nat Nat := golden.WithIgnoreFields ["x"]

/-- A file system whose golden file holds the list 1, 2. -/
def world : World := [("golden.json", "[1,2]")]

/-- A file system whose golden file holds the list 1, 1. -/
def worldOnes : World := [("golden.json", "[1,1]")]

/-- A file system whose golden file holds the single value 1. -/
def worldSingle : World := [("golden.json", "1")]

/-- A file system whose golden file holds the single value 2. -/
def worldTwo : World := [("golden.json", "2")]

/-- A message: a name and a span id. -/
abbrev Msg := String × String

/-- The stand-in for `protojson` and for `encoding/json` on objects; an object
is kept as its compact text. -/
def protojson : ProtoJSON Msg Bytes where
  Marshal indent m :=
    if indent = "" then
      .ok ("\x7b\"name\":\"" ++ m.1 ++ "\",\"spanId\":\"" ++ m.2 ++ "\"\x7d")
    else
      .ok ("\x7b\n" ++ indent ++ "\"name\": \"" ++ m.1 ++ "\",\n" ++ indent ++
        "\"spanId\": \"" ++ m.2 ++ "\"\n\x7d")
  Unmarshal _ m := (some (.base "proto: syntax error"), m)
  jsonUnmarshalObj data := .ok data
  json :=
    { Marshal := fun objs => .ok ("[" ++ ",".intercalate objs ++ "]")
      MarshalIndent := fun objs pre indent =>
        .ok ("[\n" ++ ",\n".intercalate (objs.map (fun o => pre ++ indent ++ o)) ++
          "\n" ++ pre ++ "]") }

/-- The libraries of a handle on messages. -/
def msgLib : Lib Unit Msg World where
  zero := ("", "")
  ReadFile := ReadFile
  WriteFile := WriteFile
  IgnoreFields typ names := .ret (.ignoreFields typ names)
  Diff _ x y _ := .ret (if x = y then "" else "-" ++ x.1 ++ " +" ++ y.1)

/-- A stand-in for `encoding/json` on messages; it decodes nothing. -/
def msgJson : JSONLib Msg where
  Marshal
    | .value m => protojson.Marshal "" m
    | .values ms => .ok ("[" ++ ",".intercalate (ms.map (fun m => "\"" ++ m.1 ++ "\"")) ++ "]")
  MarshalIndent
    | .value m, _, indent => protojson.Marshal indent m
    | .values ms, pre, indent =>
      .ok ("[\n" ++ ",\n".intercalate (ms.map (fun m => pre ++ indent ++ "\"" ++ m.1 ++ "\"")) ++
        "\n" ++ pre ++ "]")
  Unmarshal _ _ cur := (some (.base "invalid character"), cur)

/-- The handle of `TestCompareValuesProto`:
`New[*pb.Span](path).WithEncoder(ProtoJSONEncoder{})`. -/
def protoGolden : Golden Unit Msg :=
  (New msgJson "update_multiple.golden.proto.json").WithEncoder
    (ProtoJSONEncoder.encoder protojson)

/-- The two spans of `TestCompareValuesProto`. -/
def spans : List Msg := [("First", "1"), ("Second", "2")]

/-- The file system after `UpdateValues` wrote the two spans. -/
def protoWorld : World :=
  [("update_multiple.golden.proto.json",
    "[\x7b\n\t\"name\": \"First\",\n\t\"spanId\": \"1\"\n\x7d," ++
      "\x7b\n\t\"name\": \"Second\",\n\t\"spanId\": \"2\"\n\x7d]")]

end Sample

/-! ## Lemmas on the result map -/

theorem ResultMap.set_fresh {T : Type} (m : ResultMap T) (i : Nat) (res : CompareResult T)
    (h : ∀ p ∈ m, p.1 < i) : m.set i res = m ++ [(i, res)] := by
  unfold ResultMap.set
  congr 1
  apply List.filter_eq_self.mpr
  intro p hp
  have := h p hp
  simp
  omega

theorem ResultMap.get?_nil {T : Type} (i : Nat) : ResultMap.get? ([] : ResultMap T) i = none := by
  simp [ResultMap.get?]

theorem ResultMap.get?_cons {T : Type} (p : Nat × CompareResult T) (m : ResultMap T) (i : Nat) :
    ResultMap.get? (p :: m) i = if p.1 = i then some p.2 else ResultMap.get? m i := by
  unfold ResultMap.get?
  by_cases h : p.1 = i <;> simp [List.find?_cons, h]

/-! ## Lemmas on `Golden.cmp` -/

theorem Golden.cmp_completes {S T World : Type} (lib : Lib S T World) (g : Golden S T) (s : S)
    (want got : T) (h : HookResult S T) (opts : List (CmpOption T)) (d : String)
    (hrun : g.runBeforeCompare s want got = .ret h) (herr : h.err = none)
    (hopts : g.diffOpts lib h.want = .ret opts)
    (hd : lib.Diff h.state h.want h.got opts = .ret d) :
    g.cmp lib s want got =
      .ret (({ Want := some h.want, Got := some h.got, Diff := d }, none), h.state,
        g.hookEvents want got ++ [Event.diff h.want h.got]) := by
  cases hb : g.beforeCompare with
  | none =>
    simp only [Golden.runBeforeCompare, hb, Res.ret.injEq] at hrun
    subst hrun
    simp only [] at hopts hd
    simp [Golden.cmp, Golden.cmpDiff, Golden.hookEvents, hb, hopts, hd]
  | some f =>
    simp only [Golden.runBeforeCompare, hb] at hrun
    simp [Golden.cmp, Golden.cmpDiff, Golden.hookEvents, hb, hrun, herr, hopts, hd]

theorem Golden.cmp_fails {S T World : Type} (lib : Lib S T World) (g : Golden S T) (s : S)
    (want got : T) (h : HookResult S T) (e : Error)
    (hrun : g.runBeforeCompare s want got = .ret h) (herr : h.err = some e) :
    g.cmp lib s want got =
      .ret (({ Want := some h.want, Got := some h.got, Diff := "" }, some e), h.state,
        [Event.hook want got]) := by
  cases hb : g.beforeCompare with
  | none =>
    simp only [Golden.runBeforeCompare, hb, Res.ret.injEq] at hrun
    subst hrun
    simp at herr
  | some f =>
    simp only [Golden.runBeforeCompare, hb] at hrun
    simp [Golden.cmp, hb, hrun, herr]

/-! ## Lemmas on the vocabulary -/

theorem Golden.nextState_of_run {S T : Type} (g : Golden S T) (s : S) (p : T × T)
    (h : HookResult S T) (hrun : g.runBeforeCompare s p.1 p.2 = .ret h) :
    g.nextState s p = h.state := by
  simp [Golden.nextState, hrun]

theorem Golden.stateBefore_zero {S T : Type} (g : Golden S T) (s : S) (pairs : List (T × T)) :
    g.stateBefore s pairs 0 = s := by
  simp [Golden.stateBefore]

theorem Golden.stateBefore_cons_succ {S T : Type} (g : Golden S T) (s : S) (p : T × T)
    (rest : List (T × T)) (j : Nat) :
    g.stateBefore s (p :: rest) (j + 1) = g.stateBefore (g.nextState s p) rest j := by
  simp [Golden.stateBefore]

theorem Golden.stateBefore_take {S T : Type} (g : Golden S T) (s : S) (pairs : List (T × T))
    (k j : Nat) (hj : j ≤ k) :
    g.stateBefore s (pairs.take k) j = g.stateBefore s pairs j := by
  simp [Golden.stateBefore, List.take_take, Nat.min_eq_left hj]

theorem Golden.CompletesAll_cons {S T World : Type} (lib : Lib S T World) (g : Golden S T)
    (s : S) (p : T × T) (rest : List (T × T)) (hall : g.CompletesAll lib s (p :: rest)) :
    (∃ h opts d, g.runBeforeCompare s p.1 p.2 = .ret h ∧ h.err = none ∧
      g.diffOpts lib h.want = .ret opts ∧ lib.Diff h.state h.want h.got opts = .ret d) ∧
    (∀ h, g.runBeforeCompare s p.1 p.2 = .ret h → g.CompletesAll lib h.state rest) := by
  constructor
  · have := hall 0 p (by simp)
    rwa [g.stateBefore_zero] at this
  · intro h hrun j q hq
    have := hall (j + 1) q (by simpa using hq)
    rwa [g.stateBefore_cons_succ, g.nextState_of_run s p h hrun] at this

theorem Golden.entries_cons {S T World : Type} (lib : Lib S T World) (g : Golden S T) (s : S)
    (i : Nat) (p : T × T) (rest : List (T × T)) (h : HookResult S T)
    (opts : List (CmpOption T)) (d : String)
    (hrun : g.runBeforeCompare s p.1 p.2 = .ret h) (herr : h.err = none)
    (hopts : g.diffOpts lib h.want = .ret opts)
    (hd : lib.Diff h.state h.want h.got opts = .ret d) :
    g.entries lib s i (p :: rest) =
      if d = "" then g.entries lib h.state (i + 1) rest
      else (i, { Want := some h.want, Got := some h.got, Diff := d }) ::
        g.entries lib h.state (i + 1) rest := by
  simp [Golden.entries, hrun, herr, hopts, hd]

theorem Golden.events_cons {S T : Type} (g : Golden S T) (s : S) (p : T × T)
    (rest : List (T × T)) (h : HookResult S T)
    (hrun : g.runBeforeCompare s p.1 p.2 = .ret h) :
    g.events s (p :: rest) =
      g.hookEvents p.1 p.2 ++ [Event.diff h.want h.got] ++ g.events h.state rest := by
  simp [Golden.events, hrun]

theorem Golden.entries_cons_cases {S T World : Type} (lib : Lib S T World) (g : Golden S T)
    (s : S) (i : Nat) (p : T × T) (rest : List (T × T)) :
    g.entries lib s i (p :: rest) = [] ∨
    ∃ s1, g.entries lib s i (p :: rest) = g.entries lib s1 (i + 1) rest ∨
      ∃ r, g.entries lib s i (p :: rest) = (i, r) :: g.entries lib s1 (i + 1) rest := by
  cases h1 : g.runBeforeCompare s p.1 p.2 with
  | panic msg => left; simp [Golden.entries, h1]
  | ret h =>
    cases h2 : h.err with
    | some e => left; simp [Golden.entries, h1, h2]
    | none =>
      cases h3 : g.diffOpts lib h.want with
      | panic msg => left; simp [Golden.entries, h1, h2, h3]
      | ret opts =>
        cases h4 : lib.Diff h.state h.want h.got opts with
        | panic msg => left; simp [Golden.entries, h1, h2, h3, h4]
        | ret d =>
          right
          refine ⟨h.state, ?_⟩
          rw [g.entries_cons lib s i p rest h opts d h1 h2 h3 h4]
          by_cases hd : d = ""
          · left; simp [hd]
          · right
            exact ⟨{ Want := some h.want, Got := some h.got, Diff := d }, by simp [hd]⟩

theorem Golden.entries_keys {S T World : Type} (lib : Lib S T World) (g : Golden S T)
    (pairs : List (T × T)) :
    ∀ (s : S) (i : Nat), ∀ q ∈ g.entries lib s i pairs, i ≤ q.1 ∧ q.1 < i + pairs.length := by
  induction pairs with
  | nil => intro s i q hq; simp [Golden.entries] at hq
  | cons p rest ih =>
    intro s i q hq
    simp only [List.length_cons]
    rcases g.entries_cons_cases lib s i p rest with h | ⟨s1, h | ⟨r, h⟩⟩
    · rw [h] at hq; simp at hq
    · rw [h] at hq
      have := ih s1 (i + 1) q hq
      omega
    · rw [h] at hq
      rcases List.mem_cons.mp hq with hq | hq
      · subst hq; simp
      · have := ih s1 (i + 1) q hq
        omega

theorem Golden.entries_get?_lt {S T World : Type} (lib : Lib S T World) (g : Golden S T)
    (pairs : List (T × T)) (s : S) (i j : Nat) (h : j < i) :
    ResultMap.get? (g.entries lib s i pairs) j = none := by
  unfold ResultMap.get?
  have hnone : (g.entries lib s i pairs).find? (fun p => decide (p.1 = j)) = none := by
    rw [List.find?_eq_none]
    intro p hp
    have := (g.entries_keys lib pairs s i p hp).1
    simp
    omega
  rw [hnone]
  rfl

theorem Golden.entries_get?_ge {S T World : Type} (lib : Lib S T World) (g : Golden S T)
    (pairs : List (T × T)) (s : S) (i j : Nat) (h : i + pairs.length ≤ j) :
    ResultMap.get? (g.entries lib s i pairs) j = none := by
  unfold ResultMap.get?
  have hnone : (g.entries lib s i pairs).find? (fun p => decide (p.1 = j)) = none := by
    rw [List.find?_eq_none]
    intro p hp
    have := (g.entries_keys lib pairs s i p hp).2
    simp
    omega
  rw [hnone]
  rfl

theorem Golden.entries_get? {S T World : Type} (lib : Lib S T World) (g : Golden S T)
    (pairs : List (T × T)) :
    ∀ (s : S) (i j : Nat) (p : T × T) (h : HookResult S T) (opts : List (CmpOption T))
      (d : String),
      g.CompletesAll lib s pairs → pairs[j]? = some p →
      g.runBeforeCompare (g.stateBefore s pairs j) p.1 p.2 = .ret h →
      g.diffOpts lib h.want = .ret opts →
      lib.Diff h.state h.want h.got opts = .ret d →
      ResultMap.get? (g.entries lib s i pairs) (i + j) =
        if d = "" then none else some { Want := some h.want, Got := some h.got, Diff := d } := by
  induction pairs with
  | nil => intro s i j p h opts d _ hp; simp at hp
  | cons q rest ih =>
    intro s i j p h opts d hall hp hrun hopts hd
    obtain ⟨⟨h0, opts0, d0, hrun0, herr0, hopts0, hd0⟩, htail⟩ :=
      g.CompletesAll_cons lib s q rest hall
    rw [g.entries_cons lib s i q rest h0 opts0 d0 hrun0 herr0 hopts0 hd0]
    cases j with
    | zero =>
      simp only [List.getElem?_cons_zero, Option.some.injEq] at hp
      subst hp
      rw [g.stateBefore_zero, hrun0, Res.ret.injEq] at hrun
      subst hrun
      rw [hopts0, Res.ret.injEq] at hopts
      subst hopts
      rw [hd0, Res.ret.injEq] at hd
      subst hd
      by_cases hd1 : d0 = ""
      · simp only [hd1, if_true, Nat.add_zero]
        exact g.entries_get?_lt lib rest h0.state (i + 1) i (by omega)
      · simp [hd1, ResultMap.get?_cons]
    | succ j =>
      have e : i + (j + 1) = (i + 1) + j := by omega
      simp only [List.getElem?_cons_succ] at hp
      rw [g.stateBefore_cons_succ, g.nextState_of_run s q h0 hrun0] at hrun
      have key := ih h0.state (i + 1) j p h opts d (htail h0 hrun0) hp hrun hopts hd
      by_cases hd1 : d0 = ""
      · simp only [hd1, if_true]
        rw [e]
        exact key
      · simp only [hd1, if_false]
        rw [ResultMap.get?_cons, if_neg (by simp), e]
        exact key

theorem Golden.entries_length {S T World : Type} (lib : Lib S T World) (g : Golden S T)
    (pairs : List (T × T)) :
    ∀ (s : S) (i : Nat),
      (g.entries lib s i pairs).length =
        ((List.range' i pairs.length).filter
          (fun j => (ResultMap.get? (g.entries lib s i pairs) j).isSome)).length := by
  induction pairs with
  | nil => intro s i; simp [Golden.entries]
  | cons p rest ih =>
    intro s i
    simp only [List.length_cons, List.range'_succ]
    rcases g.entries_cons_cases lib s i p rest with h | ⟨s1, h | ⟨r, h⟩⟩
    · rw [h]
      simp [ResultMap.get?_nil]
    · rw [h, List.filter_cons,
        g.entries_get?_lt lib rest s1 (i + 1) i (by omega)]
      simpa using ih s1 (i + 1)
    · rw [h, List.filter_cons, ResultMap.get?_cons]
      simp only [if_true, Option.isSome_some, List.length_cons]
      congr 1
      rw [ih s1 (i + 1)]
      congr 1
      apply List.filter_congr
      intro j hj
      have hj1 := (List.mem_range'_1.mp hj).1
      rw [ResultMap.get?_cons, if_neg (by simp; omega)]


/-! ## Lemmas on the loop -/

theorem drop_cons_getElem? {T : Type} (l : List T) (i : Nat) (x : T) (xs : List T)
    (h : l.drop i = x :: xs) : l[i]? = some x ∧ l.drop (i + 1) = xs := by
  constructor
  · have hd : (l.drop i)[0]? = l[i + 0]? := List.getElem?_drop l i 0
    rw [h] at hd
    simpa using hd.symm
  · have hd : l.drop (i + 1) = (l.drop i).drop 1 := by
      rw [List.drop_drop]
    rw [hd, h]
    rfl

theorem split_at_index {T : Type} (l : List T) (k : Nat) (x : T) (h : l[k]? = some x) :
    l = l.take k ++ x :: l.drop (k + 1) ∧ (l.take k).length = k := by
  obtain ⟨hk, hx⟩ := List.getElem?_eq_some_iff.mp h
  constructor
  · have h1 : l.drop k = l[k] :: l.drop (k + 1) := List.drop_eq_getElem_cons hk
    rw [← hx, ← h1, List.take_append_drop]
  · rw [List.length_take]
    omega

theorem Golden.compareLoop_ok {S T World : Type} (lib : Lib S T World) (g : Golden S T)
    (wantValues : List T) :
    ∀ (gs ws : List T) (i : Nat) (s : S) (result : ResultMap T) (tr : List (Event T)),
      wantValues.drop i = ws → ws.length = gs.length →
      g.CompletesAll lib s (ws.zip gs) →
      (∀ p ∈ result, p.1 < i) →
      g.compareLoop lib wantValues gs i s result tr =
        .ret ((result ++ g.entries lib s i (ws.zip gs), none),
          (ws.zip gs).foldl g.nextState s, tr ++ g.events s (ws.zip gs)) := by
  intro gs
  induction gs with
  | nil =>
    intro ws i s result tr _ hlen _ _
    have : ws = [] := List.length_eq_zero.mp (by simpa using hlen)
    subst this
    simp [Golden.compareLoop, Golden.entries, Golden.events]
  | cons got rest ih =>
    intro ws i s result tr hdrop hlen hall hkeys
    cases ws with
    | nil => simp at hlen
    | cons want ws2 =>
      obtain ⟨hget, hdrop2⟩ := drop_cons_getElem? wantValues i want ws2 hdrop
      have hlen2 : ws2.length = rest.length := by simpa using hlen
      rw [List.zip_cons_cons] at hall ⊢
      obtain ⟨⟨h0, opts0, d0, hrun0, herr0, hopts0, hd0⟩, htail⟩ :=
        g.CompletesAll_cons lib s (want, got) (ws2.zip rest) hall
      have hnext : g.nextState s (want, got) = h0.state :=
        g.nextState_of_run s (want, got) h0 hrun0
      rw [g.entries_cons lib s i (want, got) _ h0 opts0 d0 hrun0 herr0 hopts0 hd0,
        g.events_cons s (want, got) _ h0 hrun0, List.foldl_cons, hnext]
      unfold Golden.compareLoop
      simp only [hget, g.cmp_completes lib s want got h0 opts0 d0 hrun0 herr0 hopts0 hd0]
      by_cases hd1 : d0 = ""
      · have hok : (CompareResult.OK
            ({ Want := some h0.want, Got := some h0.got, Diff := d0 } : CompareResult T)) = true := by
          simp [CompareResult.OK, hd1]
        simp only [hok, if_true]
        rw [ih ws2 (i + 1) h0.state result _ hdrop2 hlen2 (htail h0 hrun0)
          (fun p hp => by have := hkeys p hp; omega)]
        simp [hd1, List.append_assoc]
      · have hok : (CompareResult.OK
            ({ Want := some h0.want, Got := some h0.got, Diff := d0 } : CompareResult T)) = false := by
          simp [CompareResult.OK, hd1]
        simp only [hok, Bool.false_eq_true, if_false]
        rw [ResultMap.set_fresh result i _ hkeys]
        rw [ih ws2 (i + 1) h0.state _ _ hdrop2 hlen2 (htail h0 hrun0) (by
          intro p hp
          rcases List.mem_append.mp hp with h | h
          · have := hkeys p h; omega
          · simp at h; subst h; simp)]
        simp [hd1, List.append_assoc]

theorem Golden.compareLoop_err {S T World : Type} (lib : Lib S T World) (g : Golden S T)
    (wantValues : List T) (wk gk : T) (wpost gpost : List T) (e : Error) :
    ∀ (gpre wpre : List T) (i : Nat) (s : S) (result : ResultMap T) (tr : List (Event T))
      (hK : HookResult S T),
      wantValues.drop i = wpre ++ wk :: wpost → wpre.length = gpre.length →
      g.CompletesAll lib s (wpre.zip gpre) →
      g.runBeforeCompare ((wpre.zip gpre).foldl g.nextState s) wk gk = .ret hK →
      hK.err = some e →
      (∀ p ∈ result, p.1 < i) →
      g.compareLoop lib wantValues (gpre ++ gk :: gpost) i s result tr =
        .ret ((result ++ g.entries lib s i (wpre.zip gpre), some e), hK.state,
          tr ++ g.events s (wpre.zip gpre) ++ [Event.hook wk gk]) := by
  intro gpre
  induction gpre with
  | nil =>
    intro wpre i s result tr hK hdrop hlen _ hrunK herrK _
    have : wpre = [] := List.length_eq_zero.mp (by simpa using hlen)
    subst this
    obtain ⟨hget, _⟩ := drop_cons_getElem? wantValues i wk wpost (by simpa using hdrop)
    simp only [List.zip_nil_left, List.foldl_nil] at hrunK
    simp only [List.nil_append]
    unfold Golden.compareLoop
    simp [hget, g.cmp_fails lib s wk gk hK e hrunK herrK, Golden.entries, Golden.events]
  | cons got rest ih =>
    intro wpre i s result tr hK hdrop hlen hall hrunK herrK hkeys
    cases wpre with
    | nil => simp at hlen
    | cons want ws2 =>
      obtain ⟨hget, hdrop2⟩ :=
        drop_cons_getElem? wantValues i want (ws2 ++ wk :: wpost) (by simpa using hdrop)
      have hlen2 : ws2.length = rest.length := by simpa using hlen
      rw [List.zip_cons_cons] at hall hrunK ⊢
      obtain ⟨⟨h0, opts0, d0, hrun0, herr0, hopts0, hd0⟩, htail⟩ :=
        g.CompletesAll_cons lib s (want, got) (ws2.zip rest) hall
      have hnext : g.nextState s (want, got) = h0.state :=
        g.nextState_of_run s (want, got) h0 hrun0
      rw [List.foldl_cons, hnext] at hrunK
      rw [g.entries_cons lib s i (want, got) _ h0 opts0 d0 hrun0 herr0 hopts0 hd0,
        g.events_cons s (want, got) _ h0 hrun0]
      simp only [List.cons_append]
      unfold Golden.compareLoop
      simp only [hget, g.cmp_completes lib s want got h0 opts0 d0 hrun0 herr0 hopts0 hd0]
      by_cases hd1 : d0 = ""
      · have hok : (CompareResult.OK
            ({ Want := some h0.want, Got := some h0.got, Diff := d0 } : CompareResult T)) = true := by
          simp [CompareResult.OK, hd1]
        simp only [hok, if_true]
        rw [ih ws2 (i + 1) h0.state result _ hK hdrop2 hlen2 (htail h0 hrun0) hrunK herrK
          (fun p hp => by have := hkeys p hp; omega)]
        simp [hd1, List.append_assoc]
      · have hok : (CompareResult.OK
            ({ Want := some h0.want, Got := some h0.got, Diff := d0 } : CompareResult T)) = false := by
          simp [CompareResult.OK, hd1]
        simp only [hok, Bool.false_eq_true, if_false]
        rw [ResultMap.set_fresh result i _ hkeys]
        rw [ih ws2 (i + 1) h0.state _ _ hK hdrop2 hlen2 (htail h0 hrun0) hrunK herrK (by
          intro p hp
          rcases List.mem_append.mp hp with h | h
          · have := hkeys p h; omega
          · simp at h; subst h; simp)]
        simp [hd1, List.append_assoc]

/-! ## What `CompareValues` returns -/

theorem Golden.CompareValues_of_completes {S T World : Type} (lib : Lib S T World)
    (g : Golden S T) (w : World) (s : S) (goldenData : Bytes) (wantValues gotValues : List T)
    (hread : lib.ReadFile w g.path = .ok goldenData)
    (hdec : g.encoder.Unmarshal goldenData .values [] = (none, wantValues))
    (hlen : wantValues.length = gotValues.length)
    (hall : g.CompletesAll lib s (wantValues.zip gotValues)) :
    g.CompareValues lib gotValues w s =
      .ret ((g.entries lib s 0 (wantValues.zip gotValues), none),
        (wantValues.zip gotValues).foldl g.nextState s,
        g.events s (wantValues.zip gotValues)) := by
  unfold Golden.CompareValues
  simp only [hread, hdec]
  rw [if_neg (by simp [hlen])]
  by_cases h0 : wantValues.length = 0
  · have hw : wantValues = [] := List.length_eq_zero.mp h0
    subst hw
    simp [Golden.entries, Golden.events]
  · rw [if_neg h0]
    rw [g.compareLoop_ok lib wantValues gotValues wantValues 0 s [] [] rfl hlen hall (by simp)]
    simp

theorem Golden.CompareValues_of_hook_err {S T World : Type} (lib : Lib S T World)
    (g : Golden S T) (w : World) (s : S) (goldenData : Bytes) (wantValues gotValues : List T)
    (k : Nat) (wantK gotK : T) (hK : HookResult S T) (e : Error)
    (hread : lib.ReadFile w g.path = .ok goldenData)
    (hdec : g.encoder.Unmarshal goldenData .values [] = (none, wantValues))
    (hlen : wantValues.length = gotValues.length)
    (hwk : wantValues[k]? = some wantK) (hgk : gotValues[k]? = some gotK)
    (hall : g.CompletesAll lib s ((wantValues.zip gotValues).take k))
    (hrunK : g.runBeforeCompare (g.stateBefore s (wantValues.zip gotValues) k) wantK gotK =
      .ret hK)
    (herrK : hK.err = some e) :
    g.CompareValues lib gotValues w s =
      .ret ((g.entries lib s 0 ((wantValues.zip gotValues).take k), some e), hK.state,
        g.events s ((wantValues.zip gotValues).take k) ++ [Event.hook wantK gotK]) := by
  obtain ⟨hw, hwl⟩ := split_at_index wantValues k wantK hwk
  obtain ⟨hg, hgl⟩ := split_at_index gotValues k gotK hgk
  have hzip : (wantValues.zip gotValues).take k = (wantValues.take k).zip (gotValues.take k) := by
    simp [List.zip, List.take_zipWith]
  have hne : wantValues.length ≠ 0 := by
    have := (List.getElem?_eq_some_iff.mp hwk).1
    omega
  unfold Golden.CompareValues
  simp only [hread, hdec]
  rw [if_neg (by simp [hlen]), if_neg hne]
  unfold Golden.stateBefore at hrunK
  rw [hzip] at hall hrunK ⊢
  have key := g.compareLoop_err lib wantValues wantK gotK (wantValues.drop (k + 1))
    (gotValues.drop (k + 1)) e (gotValues.take k) (wantValues.take k) 0 s [] [] hK
    (by simpa using hw) (by rw [hwl, hgl]) hall hrunK herrK (by simp)
  rw [← hg] at key
  rw [key]
  simp

theorem Golden.CompareElements_eq_CompareValues {S T World : Type} (lib : Lib S T World)
    (g : Golden S T) (gotValues : List T) (w : World) (s : S) :
    g.CompareElements lib gotValues w s = g.CompareValues lib gotValues w s := rfl

theorem Golden.completesAll_of_index {S T World : Type} (lib : Lib S T World) (g : Golden S T)
    (s : S) (wantValues gotValues : List T) (k : Nat)
    (h : ∀ i want got, i < k → wantValues[i]? = some want → gotValues[i]? = some got →
      ∃ h opts d,
        g.runBeforeCompare (g.stateBefore s (wantValues.zip gotValues) i) want got = .ret h ∧
        h.err = none ∧ g.diffOpts lib h.want = .ret opts ∧
        lib.Diff h.state h.want h.got opts = .ret d) :
    g.CompletesAll lib s ((wantValues.zip gotValues).take k) := by
  intro j p hp
  have hjk : j < k := by
    by_contra hcon
    have : ((wantValues.zip gotValues).take k)[j]? = none := by
      rw [List.getElem?_eq_none_iff, List.length_take]
      omega
    rw [this] at hp
    cases hp
  rw [List.getElem?_take_of_lt hjk] at hp
  obtain ⟨hw, hg⟩ := List.getElem?_zip_eq_some.mp hp
  rw [g.stateBefore_take s _ k j (Nat.le_of_lt hjk)]
  exact h j p.1 p.2 hjk hw hg


theorem Golden.events_length_le {S T : Type} (g : Golden S T) (pairs : List (T × T)) :
    ∀ s : S, (g.events s pairs).length ≤ 2 * pairs.length := by
  induction pairs with
  | nil => intro s; simp [Golden.events]
  | cons p rest ih =>
    intro s
    unfold Golden.events
    cases hrun : g.runBeforeCompare s p.1 p.2 with
    | panic msg => simp
    | ret h =>
      have h1 : (g.hookEvents p.1 p.2).length ≤ 1 := by
        unfold Golden.hookEvents
        cases g.beforeCompare <;> simp
      have h2 := ih h.state
      simp only [List.length_append, List.length_cons, List.length_nil]
      omega

/-! ## C1: the batch result when no hook invocation fails -/

/-- C1, counterexample.  The golden file holds the list 1, 2, the fresh list is
3, 2 and the hook normalises both values of a pair to 0 and succeeds.  The
lists have equal length and every hook invocation succeeds, the diff of
`W[0] = 1` against `G[0] = 3` is non-empty, and yet `CompareValues` returns the
empty map: index 0 is no key, because the diff was taken of the normalised
copies.  And on the handle `New[int]("golden.json").WithIgnoreFields("x")`,
with no hook and the fresh list 1, 2, `CompareValues` does not return at all:
`cmpopts.IgnoreFields` panics on a value that is no struct. -/
theorem compareValues_raw_diff_counterexample :
    Sample.normalisingGolden.CompareValues Sample.lib [3, 2] Sample.world 0 =
      .ret (([], none), 2,
        [Event.hook 1 3, Event.diff 0 0, Event.hook 2 2, Event.diff 0 0]) ∧
    Sample.lib.Diff 0 1 3 [CmpOption.protocmpTransform] = .ret "-1 +3" ∧
    ¬ (ResultMap.get? ([] : ResultMap Nat) 0 ≠ none ↔ ("-1 +3" : String) ≠ "") ∧
    Sample.ignoringGolden.CompareValues Sample.lib [1, 2] Sample.world 0 =
      .panic "int must be a non-pointer struct" := by
  refine ⟨by decide, by decide, by decide, by decide⟩

/-- C1, amended.  The run begins in state `s`; the golden file decodes to
`wantValues` and the fresh list has the same length.  Suppose that at every
index `i` the comparison runs to its end: the hook call made there, in the
state the calls before it left, returns without error (without a hook no call
is made), `cmpopts.IgnoreFields` returns when there are fields to ignore, and
`cmp.Diff` returns.  Then `CompareValues` returns a nil error and a map `M`
such that, for every index `i` of the lists: `i` is a key of `M` exactly when
the diff `d` of the pair as the hook left it is non-empty, and `M[i]` then
holds the two values as the hook left them together with `d`.  Without a hook
the pair is left as it was, so the values are `W[i]`, `G[i]` and `d` is the
diff of `W[i]` against `G[i]`.  No index past the lists is a key, the size of
`M` is the number of positions whose diff is not empty, and `M` is empty when
the lists are empty. -/
theorem compareValues_hooks_succeed {S T World : Type} (lib : Lib S T World) (g : Golden S T)
    (w : World) (s : S) (goldenData : Bytes) (wantValues gotValues : List T)
    (hread : lib.ReadFile w g.path = .ok goldenData)
    (hdec : g.encoder.Unmarshal goldenData .values [] = (none, wantValues))
    (hlen : wantValues.length = gotValues.length)
    (hcmp : ∀ i want got, wantValues[i]? = some want → gotValues[i]? = some got →
      ∃ h opts d,
        g.runBeforeCompare (g.stateBefore s (wantValues.zip gotValues) i) want got = .ret h ∧
        h.err = none ∧ g.diffOpts lib h.want = .ret opts ∧
        lib.Diff h.state h.want h.got opts = .ret d) :
    ∃ (M : ResultMap T) (sEnd : S) (tr : List (Event T)),
      g.CompareValues lib gotValues w s = .ret ((M, none), sEnd, tr) ∧
      (∀ i want got h opts d, wantValues[i]? = some want → gotValues[i]? = some got →
        g.runBeforeCompare (g.stateBefore s (wantValues.zip gotValues) i) want got = .ret h →
        g.diffOpts lib h.want = .ret opts →
        lib.Diff h.state h.want h.got opts = .ret d →
        (M.get? i ≠ none ↔ d ≠ "") ∧
        (d ≠ "" → M.get? i = some { Want := some h.want, Got := some h.got, Diff := d })) ∧
      (g.beforeCompare = none → ∀ s1 want got,
        g.runBeforeCompare s1 want got =
          .ret { state := s1, want := want, got := got, err := none }) ∧
      (∀ i, gotValues.length ≤ i → M.get? i = none) ∧
      M.length =
        ((List.range gotValues.length).filter
          (fun i => g.differsAt lib s (wantValues.zip gotValues) i)).length ∧
      (gotValues = [] → M = []) := by
  have hall : g.CompletesAll lib s (wantValues.zip gotValues) := by
    intro j p hp
    obtain ⟨hw, hg⟩ := List.getElem?_zip_eq_some.mp hp
    exact hcmp j p.1 p.2 hw hg
  have hzl : (wantValues.zip gotValues).length = gotValues.length := by
    rw [List.length_zip, hlen, Nat.min_self]
  refine ⟨g.entries lib s 0 (wantValues.zip gotValues), _, _,
    g.CompareValues_of_completes lib w s goldenData wantValues gotValues hread hdec hlen hall,
    ?_, ?_, ?_, ?_, ?_⟩
  · intro i want got h opts d hw hg hrun hopts hd
    have hz : (wantValues.zip gotValues)[i]? = some (want, got) :=
      List.getElem?_zip_eq_some.mpr ⟨hw, hg⟩
    have hget := g.entries_get? lib (wantValues.zip gotValues) s 0 i (want, got) h opts d
      hall hz hrun hopts hd
    rw [Nat.zero_add] at hget
    rw [hget]
    by_cases hd1 : d = "" <;> simp [hd1]
  · intro hnone s1 want got
    simp [Golden.runBeforeCompare, hnone]
  · intro i hi
    exact g.entries_get?_ge lib _ s 0 i (by omega)
  · have hkeys := g.entries_length lib (wantValues.zip gotValues) s 0
    rw [hzl, ← List.range_eq_range'] at hkeys
    rw [hkeys]
    congr 1
    apply List.filter_congr
    intro i hi
    have hi1 : i < (wantValues.zip gotValues).length := by
      rw [hzl]
      exact List.mem_range.mp hi
    have hp : (wantValues.zip gotValues)[i]? = some (wantValues.zip gotValues)[i] :=
      List.getElem?_eq_getElem hi1
    obtain ⟨hw, hg⟩ := List.getElem?_zip_eq_some.mp hp
    obtain ⟨h, opts, d, hrun, _, hopts, hd⟩ := hcmp i _ _ hw hg
    have hget := g.entries_get? lib (wantValues.zip gotValues) s 0 i _ h opts d
      hall hp hrun hopts hd
    rw [Nat.zero_add] at hget
    rw [hget]
    simp only [Golden.differsAt, Golden.diffAt, hp, hrun, hopts, hd]
    by_cases hd1 : d = "" <;> simp [hd1]
  · intro hempty
    subst hempty
    simp [Golden.entries]

/-- C1, amended, on a hook that keeps state and normalises on its first call
only: reference 1, 1 and fresh 3, 3, two equal pairs.  The error is nil, index
0 is no key, index 1 is the only key and holds the pair 1, 3 with its diff,
and the map has size 1. -/
theorem compareValues_hooks_succeed_witness :
    ∃ (M : ResultMap Nat) (sEnd : Nat) (tr : List (Event Nat)),
      Sample.normalisingFirstCallGolden.CompareValues Sample.lib [3, 3] Sample.worldOnes 0 =
        .ret ((M, none), sEnd, tr) ∧
      M.get? 0 = none ∧
      M.get? 1 = some { Want := some 1, Got := some 3, Diff := "-1 +3" } ∧
      M.length = 1 := by
  obtain ⟨M, sEnd, tr, hret, hidx, _, _, hsize, _⟩ :=
    compareValues_hooks_succeed Sample.lib Sample.normalisingFirstCallGolden Sample.worldOnes 0
      "[1,1]" [1, 1] [3, 3] rfl (by decide) (by decide) (by
        intro i want got hw hg
        match i, hw, hg with
        | 0, hw, hg =>
          cases hw
          cases hg
          exact ⟨⟨1, 0, 0, none⟩, [CmpOption.protocmpTransform], "", rfl, rfl, rfl, rfl⟩
        | 1, hw, hg =>
          cases hw
          cases hg
          exact ⟨⟨2, 1, 3, none⟩, [CmpOption.protocmpTransform], "-1 +3", rfl, rfl, rfl, rfl⟩
        | i + 2, hw, _ => simp at hw)
  have h0 : M.get? 0 = none := by
    have := (hidx 0 1 3 ⟨1, 0, 0, none⟩ [CmpOption.protocmpTransform] "" rfl rfl rfl rfl rfl).1
    by_contra hne
    exact absurd (this.mp hne) (by decide)
  have h1 : M.get? 1 = some { Want := some 1, Got := some 3, Diff := "-1 +3" } :=
    (hidx 1 1 3 ⟨2, 1, 3, none⟩ [CmpOption.protocmpTransform] "-1 +3" rfl rfl rfl rfl rfl).2
      (by decide)
  exact ⟨M, sEnd, tr, hret, h0, h1, hsize.trans (by decide)⟩

/-! ## C8: the batch result when a hook invocation fails -/

/-- C8, counterexample.  The golden file holds 1, 2, the fresh list is 3, 2,
and the hook normalises both values to 0 and fails when the reference is 2.
Index 1 is the first index at which the hook fails; the diff of `W[0] = 1`
against `G[0] = 3` is non-empty, and yet the returned map is empty: index 0 is
no key.  And with fields to ignore on a handle of numbers, where the hook
fails first at index 1, `CompareValues` does not return the hook's error: it
panics at index 0, in `cmpopts.IgnoreFields`. -/
theorem compareValues_abort_raw_diff_counterexample :
    Sample.normalisingUntilTwoGolden.CompareValues Sample.lib [3, 2] Sample.world 0 =
      .ret (([], some (.base "vetoed")), 2,
        [Event.hook 1 3, Event.diff 0 0, Event.hook 2 2]) ∧
    Sample.normalisingUntilTwo 0 1 3 =
      .ret { state := 1, want := 0, got := 0, err := none } ∧
    Sample.normalisingUntilTwo 1 2 2 =
      .ret { state := 2, want := 0, got := 0, err := some (.base "vetoed") } ∧
    Sample.lib.Diff 0 1 3 [CmpOption.protocmpTransform] = .ret "-1 +3" ∧
    ¬ (ResultMap.get? ([] : ResultMap Nat) 0 ≠ none ↔ (0 < 1 ∧ ("-1 +3" : String) ≠ "")) ∧
    (Sample.vetoAtTwoGolden.WithIgnoreFields ["x"]).CompareValues Sample.lib [3, 2]
        Sample.world 0 =
      .panic "int must be a non-pointer struct" := by
  refine ⟨by decide, by decide, by decide, by decide, by decide, by decide⟩

/-- C8, amended.  The run begins in state `s`; the golden file decodes to
`wantValues` and the fresh list has the same length.  Suppose that `k` is the
first index at which the hook fails: the hook call made at index `k`, in the
state the calls before it left, returns the error `e`, and at every index
below `k` the comparison runs to its end (the hook call made there returns
without error, `cmpopts.IgnoreFields` returns when there are fields to ignore,
and `cmp.Diff` returns).  Then `CompareValues` returns exactly `e` and a map
`M` whose keys are exactly the indices `i < k` at which the diff `d` of the
pair as the hook left it is non-empty, `M[i]` holding the two values as the
hook left them and `d`.  The invocations made are those of the comparisons of
the indices below `k`, at most two for each, followed by the one hook call at
index `k`: there is no diff at index `k` and neither hook nor diff at a later
index. -/
theorem compareValues_hook_fails {S T World : Type} (lib : Lib S T World) (g : Golden S T)
    (w : World) (s : S) (goldenData : Bytes) (wantValues gotValues : List T) (k : Nat)
    (wantK gotK : T) (hK : HookResult S T) (e : Error)
    (hread : lib.ReadFile w g.path = .ok goldenData)
    (hdec : g.encoder.Unmarshal goldenData .values [] = (none, wantValues))
    (hlen : wantValues.length = gotValues.length)
    (hwk : wantValues[k]? = some wantK) (hgk : gotValues[k]? = some gotK)
    (hrunK : g.runBeforeCompare (g.stateBefore s (wantValues.zip gotValues) k) wantK gotK =
      .ret hK)
    (herrK : hK.err = some e)
    (hbefore : ∀ i want got, i < k → wantValues[i]? = some want → gotValues[i]? = some got →
      ∃ h opts d,
        g.runBeforeCompare (g.stateBefore s (wantValues.zip gotValues) i) want got = .ret h ∧
        h.err = none ∧ g.diffOpts lib h.want = .ret opts ∧
        lib.Diff h.state h.want h.got opts = .ret d) :
    ∃ (M : ResultMap T),
      g.CompareValues lib gotValues w s =
        .ret ((M, some e), hK.state,
          g.events s ((wantValues.zip gotValues).take k) ++ [Event.hook wantK gotK]) ∧
      (g.events s ((wantValues.zip gotValues).take k)).length ≤ 2 * k ∧
      (∀ i, k ≤ i → M.get? i = none) ∧
      (∀ i want got h opts d, i < k →
        wantValues[i]? = some want → gotValues[i]? = some got →
        g.runBeforeCompare (g.stateBefore s (wantValues.zip gotValues) i) want got = .ret h →
        g.diffOpts lib h.want = .ret opts →
        lib.Diff h.state h.want h.got opts = .ret d →
        (M.get? i ≠ none ↔ d ≠ "") ∧
        (d ≠ "" → M.get? i = some { Want := some h.want, Got := some h.got, Diff := d })) := by
  have hall := g.completesAll_of_index lib s wantValues gotValues k hbefore
  have htl : ((wantValues.zip gotValues).take k).length ≤ k := by
    rw [List.length_take]
    omega
  refine ⟨g.entries lib s 0 ((wantValues.zip gotValues).take k),
    g.CompareValues_of_hook_err lib w s goldenData wantValues gotValues k wantK gotK hK e hread
      hdec hlen hwk hgk hall hrunK herrK, ?_, ?_, ?_⟩
  · have := g.events_length_le ((wantValues.zip gotValues).take k) s
    omega
  · intro i hi
    exact g.entries_get?_ge lib _ s 0 i (by omega)
  · intro i want got h opts d hi hw hg hrun hopts hd
    have hz : ((wantValues.zip gotValues).take k)[i]? = some (want, got) := by
      rw [List.getElem?_take_of_lt hi]
      exact List.getElem?_zip_eq_some.mpr ⟨hw, hg⟩
    rw [← g.stateBefore_take s _ k i (Nat.le_of_lt hi)] at hrun
    have hget := g.entries_get? lib ((wantValues.zip gotValues).take k) s 0 i (want, got) h
      opts d hall hz hrun hopts hd
    rw [Nat.zero_add] at hget
    rw [hget]
    by_cases hd1 : d = "" <;> simp [hd1]

/-- C8, amended, on a hook that keeps state and fails on its second call:
reference 1, 1 and fresh 3, 3, two equal pairs.  The hook fails first at
index 1; the error comes back as it is, index 0 is the only key, and the hook
call at index 1 is the last invocation. -/
theorem compareValues_hook_fails_witness :
    ∃ (M : ResultMap Nat),
      Sample.vetoSecondCallGolden.CompareValues Sample.lib [3, 3] Sample.worldOnes 0 =
        .ret ((M, some (.base "vetoed")), 2,
          [Event.hook 1 3, Event.diff 1 3, Event.hook 1 3]) ∧
      M.get? 0 = some { Want := some 1, Got := some 3, Diff := "-1 +3" } ∧
      M.get? 1 = none := by
  obtain ⟨M, hret, _, hpast, hidx⟩ :=
    compareValues_hook_fails Sample.lib Sample.vetoSecondCallGolden Sample.worldOnes 0 "[1,1]"
      [1, 1] [3, 3] 1 1 3 ⟨2, 1, 3, some (.base "vetoed")⟩ (.base "vetoed")
      rfl (by decide) (by decide) rfl rfl rfl rfl (by
        intro i want got hi hw hg
        match i, hi, hw, hg with
        | 0, _, hw, hg =>
          cases hw
          cases hg
          exact ⟨⟨1, 1, 3, none⟩, [CmpOption.protocmpTransform], "-1 +3", rfl, rfl, rfl, rfl⟩)
  exact ⟨M, hret,
    (hidx 0 1 3 ⟨1, 1, 3, none⟩ [CmpOption.protocmpTransform] "-1 +3" (by decide) rfl rfl rfl
      rfl rfl).2 (by decide),
    hpast 1 (Nat.le_refl 1)⟩

/-! ## C3: a failing hook in `Compare` -/

/-- C3, counterexample.  The golden file holds 2, the fresh value is 5, and the
hook writes 0 through both pointers and then fails.  The file reads and
decodes to 2 and the hook fails on the pair 2, 5; `Compare` returns the hook's
error, and an outcome whose `Want` and `Got` hold 0 and 0: not the reference 2
and the fresh value 5. -/
theorem compare_hook_writes_counterexample :
    Sample.writingVetoGolden.Compare Sample.lib 5 Sample.worldTwo 0 =
      .ret (({ Want := some 0, Got := some 0, Diff := "" }, some (.base "vetoed")), 1,
        [Event.hook 2 5]) ∧
    Sample.writingVetoGolden.encoder.Unmarshal "2" Dest.value Sample.lib.zero = (none, 2) ∧
    Sample.writingThenFailing 0 2 5 =
      .ret { state := 1, want := 0, got := 0, err := some (.base "vetoed") } ∧
    ({ Want := some 0, Got := some 0, Diff := "" } : CompareResult Nat) ≠
      { Want := some 2, Got := some 5, Diff := "" } := by
  refine ⟨by decide, by decide, by decide, by decide⟩

/-- C3, amended.  The call begins in state `s`.  When the golden file reads and
decodes to `want` and the `beforeCompare` hook, called on the reference and the
fresh value, returns the error `e`, `Compare` returns exactly `e`, not wrapped,
with an outcome whose `Diff` is empty and whose `Want` and `Got` point to the
reference and the fresh value as the hook left them: a hook may write through
its two pointers before it fails.  The hook call is the only invocation: no
diff is computed, whatever `cmp.Diff` would have said of the two values. -/
theorem compare_hook_error_verbatim {S T World : Type} (lib : Lib S T World) (g : Golden S T)
    (w : World) (s : S) (goldenData : Bytes) (want got : T) (f : Hook S T)
    (h : HookResult S T) (e : Error)
    (hread : lib.ReadFile w g.path = .ok goldenData)
    (hdec : g.encoder.Unmarshal goldenData .value lib.zero = (none, want))
    (hhook : g.beforeCompare = some f)
    (hcall : f s want got = .ret h)
    (hfail : h.err = some e) :
    g.Compare lib got w s =
      .ret (({ Want := some h.want, Got := some h.got, Diff := "" }, some e), h.state,
        [Event.hook want got]) := by
  have hrun : g.runBeforeCompare s want got = .ret h := by
    simp [Golden.runBeforeCompare, hhook, hcall]
  unfold Golden.Compare
  simp only [hread, hdec]
  exact g.cmp_fails lib s want got h e hrun hfail

/-- C3, amended, on the hook that writes and then fails: the golden file holds
1 and the fresh value is 7. -/
theorem compare_hook_error_verbatim_witness :
    Sample.writingVetoGolden.Compare Sample.lib 7 Sample.worldSingle 0 =
      .ret (({ Want := some 0, Got := some 0, Diff := "" }, some (.base "vetoed")), 1,
        [Event.hook 1 7]) :=
  compare_hook_error_verbatim Sample.lib Sample.writingVetoGolden Sample.worldSingle 0 "1" 1 7
    Sample.writingThenFailing ⟨1, 0, 0, some (.base "vetoed")⟩ (.base "vetoed") rfl (by decide)
    rfl rfl rfl

/-! ## C4: lists of different lengths -/

/-- C4.  When the golden file decodes to `wantValues` and the fresh list has
another length, `CompareValues` returns the count-mismatch error and the empty
map, and makes no invocation: neither the hook nor the diff is called for any
element, and the state is as it was. -/
theorem compareValues_count_mismatch {S T World : Type} (lib : Lib S T World) (g : Golden S T)
    (w : World) (s : S) (goldenData : Bytes) (wantValues gotValues : List T)
    (hread : lib.ReadFile w g.path = .ok goldenData)
    (hdec : g.encoder.Unmarshal goldenData .values [] = (none, wantValues))
    (hlen : wantValues.length ≠ gotValues.length) :
    g.CompareValues lib gotValues w s =
      .ret (([], some (.base ("want " ++ toString wantValues.length ++ " items but got " ++
        toString gotValues.length))), s, []) := by
  unfold Golden.CompareValues
  simp only [hread, hdec]
  rw [if_pos (fun h => hlen h.symm)]

/-- C4 on reference length 2 and fresh length 3, with a hook that would fail
if it were called. -/
theorem compareValues_count_mismatch_witness :
    Sample.vetoGolden.CompareValues Sample.lib [1, 2, 3] Sample.world 0 =
      .ret (([], some (.base "want 2 items but got 3")), 0, []) :=
  compareValues_count_mismatch Sample.lib Sample.vetoGolden Sample.world 0 "[1,2]" [1, 2]
    [1, 2, 3] rfl (by decide) (by decide)

/-! ## C10: the configuration calls -/

/-- C10.  Each configuration call returns a handle whose named field is the
argument (`WithIgnoreFields` replaces the list) and whose other six fields are
those of `g`; `Path` is preserved by every call.  The receiver is a value, so
`g` itself is the same before and after. -/
theorem config_calls_override_one_field {S T : Type} (g : Golden S T) (fields : List String)
    (packed : Bool) (mode : FileMode) (fu fc : Option (Hook S T)) (enc : Encoder T) :
    ((g.WithIgnoreFields fields).ignoreFields = fields ∧
      (g.WithIgnoreFields fields).path = g.path ∧
      (g.WithIgnoreFields fields).packed = g.packed ∧
      (g.WithIgnoreFields fields).encoder = g.encoder ∧
      (g.WithIgnoreFields fields).writeMode = g.writeMode ∧
      (g.WithIgnoreFields fields).beforeCompare = g.beforeCompare ∧
      (g.WithIgnoreFields fields).beforeUpdate = g.beforeUpdate ∧
      (g.WithIgnoreFields fields).Path = g.Path) ∧
    ((g.WithPackedOutput packed).packed = packed ∧
      (g.WithPackedOutput packed).path = g.path ∧
      (g.WithPackedOutput packed).encoder = g.encoder ∧
      (g.WithPackedOutput packed).writeMode = g.writeMode ∧
      (g.WithPackedOutput packed).ignoreFields = g.ignoreFields ∧
      (g.WithPackedOutput packed).beforeCompare = g.beforeCompare ∧
      (g.WithPackedOutput packed).beforeUpdate = g.beforeUpdate ∧
      (g.WithPackedOutput packed).Path = g.Path) ∧
    ((g.WriteOutputFileMode mode).writeMode = mode ∧
      (g.WriteOutputFileMode mode).path = g.path ∧
      (g.WriteOutputFileMode mode).packed = g.packed ∧
      (g.WriteOutputFileMode mode).encoder = g.encoder ∧
      (g.WriteOutputFileMode mode).ignoreFields = g.ignoreFields ∧
      (g.WriteOutputFileMode mode).beforeCompare = g.beforeCompare ∧
      (g.WriteOutputFileMode mode).beforeUpdate = g.beforeUpdate ∧
      (g.WriteOutputFileMode mode).Path = g.Path) ∧
    ((g.WithBeforeUpdate fu).beforeUpdate = fu ∧
      (g.WithBeforeUpdate fu).path = g.path ∧
      (g.WithBeforeUpdate fu).packed = g.packed ∧
      (g.WithBeforeUpdate fu).encoder = g.encoder ∧
      (g.WithBeforeUpdate fu).writeMode = g.writeMode ∧
      (g.WithBeforeUpdate fu).ignoreFields = g.ignoreFields ∧
      (g.WithBeforeUpdate fu).beforeCompare = g.beforeCompare ∧
      (g.WithBeforeUpdate fu).Path = g.Path) ∧
    ((g.WithBeforeCompare fc).beforeCompare = fc ∧
      (g.WithBeforeCompare fc).path = g.path ∧
      (g.WithBeforeCompare fc).packed = g.packed ∧
      (g.WithBeforeCompare fc).encoder = g.encoder ∧
      (g.WithBeforeCompare fc).writeMode = g.writeMode ∧
      (g.WithBeforeCompare fc).ignoreFields = g.ignoreFields ∧
      (g.WithBeforeCompare fc).beforeUpdate = g.beforeUpdate ∧
      (g.WithBeforeCompare fc).Path = g.Path) ∧
    ((g.WithEncoder enc).encoder = enc ∧
      (g.WithEncoder enc).path = g.path ∧
      (g.WithEncoder enc).packed = g.packed ∧
      (g.WithEncoder enc).writeMode = g.writeMode ∧
      (g.WithEncoder enc).ignoreFields = g.ignoreFields ∧
      (g.WithEncoder enc).beforeCompare = g.beforeCompare ∧
      (g.WithEncoder enc).beforeUpdate = g.beforeUpdate ∧
      (g.WithEncoder enc).Path = g.Path) := by
  refine ⟨?_, ?_, ?_, ?_, ?_, ?_⟩ <;> (refine ⟨rfl, rfl, rfl, rfl, rfl, rfl, rfl, rfl⟩)

/-! ## C2: update then compare with `ProtoJSONEncoder` -/

theorem ProtoJSONEncoder.Unmarshal_other {Msg Obj : Type} (pj : ProtoJSON Msg Obj)
    (data : Bytes) :
    ProtoJSONEncoder.Unmarshal pj data GoDest.other =
      (some (.base "non proto message"), GoDest.other) := rfl

/-- C2, the code at the failing input.  With `ProtoJSONEncoder`, `CompareValues`
never returns a nil error: it returns the empty map and either the wrapped read
error or, when the golden file can be read, the error `non proto message` for
the destination `&wantValues`, whatever the bytes are.  In particular
`UpdateValues` of the two spans of `TestCompareValuesProto` succeeds and the
`CompareValues` of the same spans that follows fails. -/
theorem protoJSON_compareValues_rejects_list :
    (∀ (S Msg Obj World : Type) (pj : ProtoJSON Msg Obj) (lib : Lib S Msg World)
        (g : Golden S Msg) (gotValues : List Msg) (w : World) (s : S),
        (g.WithEncoder (ProtoJSONEncoder.encoder pj)).CompareValues lib gotValues w s =
          .ret (([], some
            (match lib.ReadFile w g.path with
              | .error err => Error.wrap "read file: " err
              | .ok _ => Error.wrap "unmarshal golden values: " (.base "non proto message"))),
            s, [])) ∧
    Sample.protoGolden.UpdateValues Sample.msgLib Sample.spans [] =
      .ret (Sample.protoWorld, none) ∧
    Sample.protoGolden.CompareValues Sample.msgLib Sample.spans Sample.protoWorld () =
      .ret (([], some (.wrap "unmarshal golden values: " (.base "non proto message"))),
        (), []) := by
  refine ⟨?_, by decide, rfl⟩
  intro S Msg Obj World pj lib g gotValues w s
  have hpath : (g.WithEncoder (ProtoJSONEncoder.encoder pj)).path = g.path := rfl
  unfold Golden.CompareValues
  rw [hpath]
  cases lib.ReadFile w g.path <;> rfl

/-! ## C5: the packing flag of `JSONEncoder.Marshal` -/

/-- C5, the code at the failing input.  `JSONEncoder.Marshal` returns the
output of `json.MarshalIndent` with a tab as indent when `packed` is true and
the compact output of `json.Marshal` when `packed` is false; the list 1, 2 is
written on four lines when packed and on one line when not. -/
theorem jsonEncoder_marshal_flag_inverted :
    (∀ (V : Type) (json : JSON V) (v : V),
      JSONEncoder.Marshal json v true = json.MarshalIndent v "" "\t" ∧
      JSONEncoder.Marshal json v false = json.Marshal v) ∧
    JSONEncoder.Marshal Sample.json.toJSON (.values [1, 2]) true = .ok "[\n\t1,\n\t2\n]" ∧
    JSONEncoder.Marshal Sample.json.toJSON (.values [1, 2]) false = .ok "[1,2]" :=
  ⟨fun _ _ _ => ⟨rfl, rfl⟩, rfl, rfl⟩

/-! ## C6: the `beforeUpdate` hook -/

/-- C6, the code at the failing input.  `Update` and `UpdateValues` do not
consult `beforeUpdate`: on a handle whose hook always fails they return what
they return without the hook, and on the sample handle they return a nil error
and write the golden file. -/
theorem update_ignores_beforeUpdate :
    (∀ (S T World : Type) (lib : Lib S T World) (g : Golden S T) (f : Option (Hook S T))
        (v : T) (vs : List T) (w : World),
      (g.WithBeforeUpdate f).Update lib v w = g.Update lib v w ∧
      (g.WithBeforeUpdate f).UpdateValues lib vs w = g.UpdateValues lib vs w) ∧
    (Sample.golden.WithBeforeUpdate (some Sample.failing)).Update Sample.lib 7 [] =
      .ret ([("golden.json", "7")], none) ∧
    (Sample.golden.WithBeforeUpdate (some Sample.failing)).UpdateValues Sample.lib [1, 2] [] =
      .ret ([("golden.json", "[1,2]")], none) :=
  ⟨fun _ _ _ _ _ _ _ _ _ => ⟨rfl, rfl⟩, by decide, by decide⟩

/-! ## C7: the errors of `Update` -/

theorem Golden.update_marshal_error {S T World : Type} (lib : Lib S T World) (g : Golden S T)
    (golden : Payload T) (w : World) (err : Error)
    (h : g.encoder.Marshal golden g.packed = .ret (.error err)) :
    g.update lib golden w = .ret (w, some (.wrap "marshal: " err)) := by
  simp [Golden.update, h]

theorem Golden.update_write_error {S T World : Type} (lib : Lib S T World) (g : Golden S T)
    (golden : Payload T) (w : World) (data : Bytes)
    (h : g.encoder.Marshal golden g.packed = .ret (.ok data)) :
    g.update lib golden w =
      .ret (lib.WriteFile w g.path data (if g.writeMode = 0 then ModePerm else g.writeMode)) := by
  simp [Golden.update, Golden.Write, h]

/-- C7, the code at the failing input.  On the handle `New[int]("")` the write
fails, and `Update` and `UpdateValues` return the error of `os.WriteFile` as it
is, with no context wrapped around it. -/
theorem update_write_error_not_wrapped :
    (New Sample.json "").Update Sample.lib 7 [] =
      .ret ([], some (.base "open : no such file or directory")) ∧
    (New Sample.json "").UpdateValues Sample.lib [1, 2] [] =
      .ret ([], some (.base "open : no such file or directory")) ∧
    Sample.lib.WriteFile [] "" "7" ModePerm =
      ([], some (.base "open : no such file or directory")) ∧
    (Error.base "open : no such file or directory").isWrapped = false := by
  refine ⟨by decide, by decide, by decide, by decide⟩

/-! ## C9: `ProtoJSONEncoder.Marshal` on a value that is no message and no slice -/

theorem ProtoJSONEncoder.Marshal_other {Msg Obj : Type} (pj : ProtoJSON Msg Obj) (k : Kind)
    (hk : k ≠ Kind.slice) (packed : Bool) :
    ProtoJSONEncoder.Marshal pj (GoValue.other k hk) packed =
      .ret (.error (.base ("unsupport type: " ++ k.String))) := by
  simp [ProtoJSONEncoder.Marshal, GoValue.asMessage, GoValue.TypeOf, hk]

/-- C9, the code at the failing input.  On the nil interface value
`ProtoJSONEncoder.Marshal` does not return: `reflect.TypeOf(nil)` is the nil
type and the call of `Kind` on it panics. -/
theorem protoJSON_marshal_nil_panics {Msg Obj : Type} (pj : ProtoJSON Msg Obj)
    (packed : Bool) :
    ProtoJSONEncoder.Marshal pj (GoValue.nil : GoValue Msg) packed =
      .panic "runtime error: invalid memory address or nil pointer dereference" := rfl

end Goldentest
